import Mathlib

/-!
Verification of `clean` (black-desk/clean), a whitespace linter.

Shallow embedding of `src/main.rs` of the `clean` repository: the defect
detector `lint_file`, the ignore matcher `should_ignore` (together with a
model of the `glob` crate's pattern compiler and matcher that it calls),
and the report/exit portion of `main`.

Text content is modelled as `List Char`, matching Rust's `str` viewed as a
sequence of Unicode scalar values, which is the granularity at which the
source operates (`split('\n')`, `chars().rev()`, `trim_end`,
`ends_with('\n')`, `contains('\r')`).
-/

namespace Clean

/-- Rust's `char::is_whitespace`: the Unicode `White_Space` property. -/
def isRustWhitespace (c : Char) : Bool :=
  c.val = 0x09 || c.val = 0x0A || c.val = 0x0B || c.val = 0x0C || c.val = 0x0D ||
  c.val = 0x20 || c.val = 0x85 || c.val = 0xA0 || c.val = 0x1680 ||
  (0x2000 ≤ c.val && c.val ≤ 0x200A) || c.val = 0x2028 || c.val = 0x2029 ||
  c.val = 0x202F || c.val = 0x205F || c.val = 0x3000

/-- Rust's `str::trim_end`: remove trailing whitespace characters. -/
def trimEnd (l : List Char) : List Char :=
  (l.reverse.dropWhile isRustWhitespace).reverse

/-- Rust's `content.split('\n')` on a `str`: always yields at least one
segment; a trailing `'\n'` yields a trailing empty segment. -/
def splitNl : List Char → List (List Char)
  | [] => [[]]
  | c :: cs =>
    if c = '\n' then [] :: splitNl cs
    else
      match splitNl cs with
      | [] => [[c]]
      | l :: ls => (c :: l) :: ls

/-- Rust's `content.ends_with('\n')`. -/
def endsWithNl (content : List Char) : Bool :=
  content.getLast? = some '\n'

/-- Rust's `content.contains("\r\n")`: some adjacent pair of characters is
CR followed by LF. -/
def containsCrlf : List Char → Bool
  | [] => false
  | c :: cs => (c = '\r' && cs.head? = some '\n') || containsCrlf cs

/-- The count of trailing `'\n'`/`'\r'` characters computed by the
`for c in content.chars().rev() { if c == newline or return, n += 1, else break }`
loop in `lint_file`. -/
def trailingNewlineCount (content : List Char) : Nat :=
  (content.reverse.takeWhile (fun c => c = '\n' || c = '\r')).length

/-- `IssueType` from `src/main.rs`. -/
inductive IssueType
  | TrailingWhitespace
  | MissingNewline
  | CrlfLineEnding
  | MultipleBlankLinesEof
deriving DecidableEq, Repr

/-- `Issue` from `src/main.rs`. -/
structure Issue where
  issue_type : IssueType
  line : Option Nat
  file : String
  message : Option String
deriving DecidableEq, Repr

/-- The first `issues.push` group of `lint_file` (`src/main.rs` 123–132):
the trailing-whitespace loop over all split segments but the last
(`enumerate().take(lines.len().saturating_sub(1))`). -/
def twHeadIssues (path : String) (content : List Char) : List Issue :=
  let lines := splitNl content
  (lines.enum.take (lines.length - 1)).filterMap fun p =>
    if (trimEnd p.2).length ≠ p.2.length then
      some { issue_type := .TrailingWhitespace, line := some (p.1 + 1),
             file := path, message := some "Trailing whitespace" }
    else none

/-- The second `issues.push` group of `lint_file` (`src/main.rs` 133–142):
the trailing-whitespace check of the last split segment
(`if let Some(last) = lines.last()`). -/
def twLastIssue (path : String) (content : List Char) : List Issue :=
  let lines := splitNl content
  match lines.getLast? with
  | some last =>
    if (trimEnd last).length ≠ last.length then
      [{ issue_type := .TrailingWhitespace, line := some lines.length,
         file := path, message := some "Trailing whitespace" }]
    else []
  | none => []

/-- The third `issues.push` group of `lint_file` (`src/main.rs` 143–150):
the missing-newline check. -/
def mnIssue (path : String) (content : List Char) : List Issue :=
  let lines := splitNl content
  if !endsWithNl content then
    [{ issue_type := .MissingNewline, line := some lines.length,
       file := path, message := some "Missing newline at end of file" }]
  else []

/-- The fourth `issues.push` group of `lint_file` (`src/main.rs` 151–162):
the CRLF scan over all split segments, guarded by
`content.contains("\r\n")`. -/
def crlfIssues (path : String) (content : List Char) : List Issue :=
  let lines := splitNl content
  if containsCrlf content then
    lines.enum.filterMap fun p =>
      if '\r' ∈ p.2 then
        some { issue_type := .CrlfLineEnding, line := some (p.1 + 1),
               file := path, message := some "Contains CRLF line endings" }
      else none
  else []

/-- The fifth `issues.push` group of `lint_file` (`src/main.rs` 163–180):
the blank-lines-at-EOF check, guarded by `!content.is_empty()`. -/
def blankIssue (path : String) (content : List Char) : List Issue :=
  let lines := splitNl content
  if content ≠ [] ∧ trailingNewlineCount content > 1 then
    [{ issue_type := .MultipleBlankLinesEof, line := some lines.length,
       file := path, message := some "Multiple blank lines at end of file" }]
  else []

/-- `lint_file` from `src/main.rs`, lines 120–182.  The five groups of
`issues.push` calls are rendered as five list fragments appended in program
order. -/
def lint_file (path : String) (content : List Char) : List Issue :=
  twHeadIssues path content ++ twLastIssue path content ++
    mnIssue path content ++ crlfIssues path content ++ blankIssue path content

/-!
Model of the `glob` crate (v0.3) as used by `should_ignore`.

`should_ignore` calls `glob::Pattern::new` (which can fail with a
`PatternError`) and `glob::Pattern::matches` (which uses the default
`MatchOptions`: case-sensitive, separators and leading dots not literal).
The compiler and matcher below are translated from the crate's
`Pattern::new`, `parse_char_specifiers`, `matches_from` and
`in_char_specifiers`; the `original` and `is_recursive` fields of the
crate's `Pattern` struct play no role in `matches` and are omitted.
-/

/-- A character specifier inside a `[...]` class. -/
inductive CharSpecifier
  | SingleChar (c : Char)
  | CharRange (lo hi : Char)
deriving DecidableEq, Repr

/-- `PatternToken` from the `glob` crate. -/
inductive PatternToken
  | Char (c : Char)
  | AnyChar
  | AnySequence
  | AnyRecursiveSequence
  | AnyWithin (cs : List CharSpecifier)
  | AnyExcept (cs : List CharSpecifier)
deriving DecidableEq, Repr

/-- `glob::PatternError`: a position and a static message. -/
structure PatternError where
  pos : Nat
  msg : String
deriving DecidableEq, Repr

def ERROR_WILDCARDS : String := "wildcards are either regular `*` or recursive `**`"

def ERROR_RECURSIVE_WILDCARDS : String :=
  "recursive wildcards must form a single path component"

def ERROR_INVALID_RANGE : String := "invalid range pattern"

/-- `parse_char_specifiers` from the `glob` crate: `a-b` (three chars with a
dash in the middle) becomes a range, anything else a single char. -/
def parseCharSpecifiers : List Char → List CharSpecifier
  | a :: '-' :: b :: rest => .CharRange a b :: parseCharSpecifiers rest
  | a :: rest => .SingleChar a :: parseCharSpecifiers rest
  | [] => []

/-- The compile loop of `glob::Pattern::new`.  `pos` is the index `i` into
the original char array, `prev` the character just before position `pos`
(used by the `**`-component validity check), `tokens` the accumulator. -/
def globCompile (pos : Nat) (prev : Option Char) (tokens : List PatternToken) :
    List Char → Except PatternError (List PatternToken)
  | [] => .ok tokens
  | '?' :: rest => globCompile (pos + 1) (some '?') (tokens ++ [.AnyChar]) rest
  | '*' :: '*' :: '*' :: _ =>
    -- a run of more than two `*`s
    .error ⟨pos + 2, ERROR_WILDCARDS⟩
  | '*' :: '*' :: rest2 =>
    -- exactly two `*`s: must form an entire path component
    if pos = 0 ∨ prev = some '/' then
      let tokens' :=
        if tokens.length > 1 ∧ tokens.getLast? = some .AnyRecursiveSequence
        then tokens else tokens ++ [.AnyRecursiveSequence]
      match rest2 with
      | '/' :: rest' => globCompile (pos + 3) (some '/') tokens' rest'
      | [] => .ok tokens'
      | _ => .error ⟨pos + 2, ERROR_RECURSIVE_WILDCARDS⟩
    else
      .error ⟨pos - 1, ERROR_RECURSIVE_WILDCARDS⟩
  | '*' :: rest =>
    globCompile (pos + 1) (some '*') (tokens ++ [.AnySequence]) rest
  | '[' :: rest =>
    if rest.length ≥ 3 ∧ rest.head? = some '!' then
      -- `[!` class: look for `]` starting two past the `!`
      match (rest.drop 2).findIdx? (· = ']') with
      | some j =>
        let cs := parseCharSpecifiers ((rest.drop 1).take (j + 1))
        globCompile (pos + j + 4) (some ']') (tokens ++ [.AnyExcept cs])
          (rest.drop (j + 3))
      | none => .error ⟨pos, ERROR_INVALID_RANGE⟩
    else if rest.length ≥ 2 ∧ rest.head? ≠ some '!' then
      match (rest.drop 1).findIdx? (· = ']') with
      | some j =>
        let cs := parseCharSpecifiers (rest.take (j + 1))
        globCompile (pos + j + 3) (some ']') (tokens ++ [.AnyWithin cs])
          (rest.drop (j + 2))
      | none => .error ⟨pos, ERROR_INVALID_RANGE⟩
    else
      .error ⟨pos, ERROR_INVALID_RANGE⟩
  | c :: rest => globCompile (pos + 1) (some c) (tokens ++ [.Char c]) rest
termination_by cs => cs.length
decreasing_by all_goals (simp [List.length_drop]) <;> omega

/-- `glob::Pattern`, reduced to its token list. -/
structure Pattern where
  tokens : List PatternToken
deriving DecidableEq, Repr

/-- `glob::Pattern::new`. -/
def Pattern.new (pattern : String) : Except PatternError Pattern :=
  (globCompile 0 none [] pattern.toList).map Pattern.mk

/-- `in_char_specifiers` from the `glob` crate, with the default
(case-sensitive) options. -/
def inCharSpecifiers (cs : List CharSpecifier) (c : Char) : Bool :=
  cs.any fun s =>
    match s with
    | .SingleChar sc => sc = c
    | .CharRange lo hi => lo ≤ c && c ≤ hi

/-- `MatchResult` from the `glob` crate. -/
inductive MatchResult
  | Match
  | SubPatternDoesntMatch
  | EntirePatternDoesntMatch
deriving DecidableEq, Repr

/-- The `while let Some(c) = file.next()` loop inside `matches_from` for
the `AnySequence`/`AnyRecursiveSequence` tokens (`isRec` tells them
apart).  The match against the remaining token slice is passed in as the
continuation `next`; when the file is exhausted control falls through to
the rest of the token slice (`next`) with the empty file. -/
def seqLoop (isRec : Bool) (next : Bool → List Char → MatchResult)
    (follows : Bool) : List Char → MatchResult
  | [] => next follows []
  | c :: fs =>
    let followsSep : Bool := c = '/'
    if isRec && !followsSep then seqLoop isRec next followsSep fs
    else
      match next followsSep fs with
      | .SubPatternDoesntMatch => seqLoop isRec next followsSep fs
      | m => m

/-- `Pattern::matches_from` from the `glob` crate, specialised to the
default `MatchOptions` (case-sensitive, `require_literal_separator` and
`require_literal_leading_dot` off).  The remaining token slice replaces
the index `i`; `follows` is `follows_separator`. -/
def matchesFrom : List PatternToken → Bool → List Char → MatchResult
  | [] => fun _ file => if file.isEmpty then .Match else .SubPatternDoesntMatch
  | tok :: rest =>
    fun follows file =>
      match tok with
      | .AnySequence =>
        (match matchesFrom rest follows file with
         | .SubPatternDoesntMatch => seqLoop false (matchesFrom rest) follows file
         | m => m)
      | .AnyRecursiveSequence =>
        (match matchesFrom rest follows file with
         | .SubPatternDoesntMatch => seqLoop true (matchesFrom rest) follows file
         | m => m)
      | _ =>
        match file with
        | [] => .EntirePatternDoesntMatch
        | c :: fs =>
          let ok : Bool :=
            match tok with
            | .AnyChar => true
            | .AnyWithin cs => inCharSpecifiers cs c
            | .AnyExcept cs => !inCharSpecifiers cs c
            | .Char c2 => c = c2
            | _ => false
          if ok then matchesFrom rest (c = '/') fs else .SubPatternDoesntMatch

/-- `glob::Pattern::matches` (default options): `matches_from` starting with
`follows_separator = true`. -/
def Pattern.matches (p : Pattern) (s : String) : Bool :=
  matchesFrom p.tokens true s.toList = .Match

/-- Splitting a character list on `'/'`, like `splitNl` for `'\n'`. -/
def splitSlash : List Char → List (List Char)
  | [] => [[]]
  | c :: cs =>
    if c = '/' then [] :: splitSlash cs
    else
      match splitSlash cs with
      | [] => [[c]]
      | l :: ls => (c :: l) :: ls

/-- Rust `PathBuf::from(path).file_name().unwrap_or_default()` (Unix
semantics): the last normal path component (empty segments and `.`
segments are not components), `""` when there is none (empty path, root,
or a path ending in `..`). -/
def rustFileName (path : String) : String :=
  let comps := (splitSlash path.toList).filter fun s => s != [] && s != ['.']
  match comps.getLast? with
  | none => ""
  | some s => if s = ['.', '.'] then "" else ⟨s⟩

/-- `should_ignore` from `src/main.rs`, lines 101–118: for each pattern in
order, compile it (propagating a compile error with `?`), and return
`true` at the first pattern that matches the path or its file name. -/
def should_ignore (path : String) (ignores : List String) :
    Except PatternError Bool :=
  match ignores with
  | [] => .ok false
  | pat :: rest =>
    match Pattern.new pat with
    | .error e => .error e
    | .ok patObj =>
      if patObj.matches path then .ok true
      else if patObj.matches (rustFileName path) then .ok true
      else should_ignore path rest

/-!
The report/exit tail of `main` (`src/main.rs` 259–306).

The scan phase has produced `all_issues`; `main` then serializes a report
to the selected destination and decides the process outcome (`Ok(())`
versus `anyhow::bail!`, i.e. exit code 0 versus 1).  The model assumes the
destination writes succeed (a write failure takes the `?` early-exit path
before any outcome is decided) and returns the fully rendered report bytes
together with the outcome, in the order the code produces them: the report
is complete before the empty/non-empty test picks the outcome.  The exact
bytes produced by `serde_json`/`serde_yaml` are approximated; no theorem
below depends on them.
-/

/-- The `serde(rename_all = "snake_case")` name of an `IssueType`. -/
def issueTypeName : IssueType → String
  | .TrailingWhitespace => "trailing_whitespace"
  | .MissingNewline => "missing_newline"
  | .CrlfLineEnding => "crlf_line_ending"
  | .MultipleBlankLinesEof => "multiple_blank_lines_eof"

/-- The `for i in &mut all_issues { i.message = None; }` loop that strips
messages before structured serialization. -/
def stripMessages (issues : List Issue) : List Issue :=
  issues.map fun i => { i with message := none }

/-- JSON string escaping as in `serde_json`. -/
def jsonEscape (s : String) : String :=
  s.toList.foldl (fun acc c =>
    acc ++
      (if c = '"' then "\\\""
       else if c = '\\' then "\\\\"
       else if c = '\n' then "\\n"
       else if c = '\r' then "\\r"
       else if c = '\t' then "\\t"
       else if c.val < 0x20 then "\\u" ++ (Nat.toDigits 16 c.val.toNat).asString
       else String.singleton c)) ""

/-- One issue as a pretty-printed JSON object (model of the derived
`Serialize` under `serde_json::to_writer_pretty`): `message` is skipped
when `None`, `line` serializes as a number or `null`. -/
def issueJson (i : Issue) : String :=
  "  \x7b\n    \"type\": \"" ++ issueTypeName i.issue_type ++
    "\",\n    \"line\": " ++
    (match i.line with | some n => toString n | none => "null") ++
    ",\n    \"file\": \"" ++ jsonEscape i.file ++ "\"" ++
    (match i.message with
     | some m => ",\n    \"message\": \"" ++ jsonEscape m ++ "\""
     | none => "") ++ "\n  \x7d"

/-- `serde_json::to_writer_pretty` on the issue vector. -/
def jsonReport (issues : List Issue) : String :=
  match issues with
  | [] => "[]"
  | _ => "[\n" ++ String.intercalate ",\n" (issues.map issueJson) ++ "\n]"

/-- `serde_yaml::to_writer` on the issue vector (block sequence of
mappings; an empty vector serializes as `[]`). -/
def yamlReport (issues : List Issue) : String :=
  match issues with
  | [] => "[]\n"
  | _ =>
    String.join (issues.map fun i =>
      "- type: " ++ issueTypeName i.issue_type ++ "\n  line: " ++
        (match i.line with | some n => toString n | none => "null") ++
        "\n  file: " ++ i.file ++ "\n" ++
        (match i.message with
         | some m => "  message: " ++ m ++ "\n"
         | none => ""))

/-- The inner `for issue in all_issues.iter().filter(...)` loop of the
default renderer, with its `cur_file` state: a new `## file` heading (with
a separating blank line after the first) whenever the file changes, then a
bullet line per issue. -/
def renderDirIssues (issues : List Issue) : String :=
  (issues.foldl
    (fun st issue =>
      let st' :=
        if issue.file ≠ st.2 then
          ((if st.2 ≠ "" then st.1 ++ "\n" else st.1) ++
            "## " ++ issue.file ++ "\n\n", issue.file)
        else st
      (st'.1 ++ "- **Line:** `" ++ toString (issue.line.getD 0) ++ "` " ++
        (issue.message.getD "") ++ "\n", st'.2))
    ("", "")).1

/-- The process outcome of `main`: `Ok(())` or `anyhow::bail!(msg)`. -/
inductive RunOutcome
  | success
  | failure (msg : String)
deriving DecidableEq, Repr

/-- Lines 259–306 of `src/main.rs`: render the aggregated issues in the
selected format and decide the process outcome.  Returns the bytes written
to the output destination together with the outcome. -/
def renderAndExit (json yaml : Bool) (dirs : List String)
    (all_issues : List Issue) : String × RunOutcome :=
  if json then
    let issues := stripMessages all_issues
    (jsonReport issues,
     if issues.isEmpty then .success else .failure "issues found")
  else if yaml then
    let issues := stripMessages all_issues
    (yamlReport issues,
     if issues.isEmpty then .success else .failure "issues found")
  else
    let body := "# Clean report\n\n" ++
      String.join (dirs.map fun dir =>
        renderDirIssues (all_issues.filter fun i => dir.isPrefixOf i.file) ++ "\n")
    if all_issues.isEmpty then (body ++ "No lint issues found.\n\n", .success)
    else (body, .failure "issues found")

/-- Hypothesis shape for reasoning about `should_ignore` reaching a later
pattern: pattern `r` compiles and matches neither the path nor its file
name, so the loop moves past it. -/
def compilesAndRejects (path r : String) : Bool :=
  match Pattern.new r with
  | .ok pr => !pr.matches path && !pr.matches (rustFileName path)
  | .error _ => false

/-! Supporting lemmas -/

theorem splitNl_ne_nil (c : List Char) : splitNl c ≠ [] := by
  match c with
  | [] => simp [splitNl]
  | ch :: cs =>
    simp only [splitNl]
    split
    · simp
    · split <;> simp

theorem splitNl_length_pos (c : List Char) : 0 < (splitNl c).length :=
  List.length_pos.mpr (splitNl_ne_nil c)

theorem enum_eq_enumFrom {α : Type _} (l : List α) : l.enum = l.enumFrom 0 := rfl

theorem mem_take_enumFrom {α : Type _} {L : List α} :
    ∀ {n k : Nat} {x : Nat × α}, x ∈ (L.enumFrom n).take k →
      n ≤ x.1 ∧ x.1 - n < min k L.length ∧ x.2 ∈ L := by
  induction L with
  | nil => intro n k x hx; simp at hx
  | cons a L ih =>
    intro n k x hx
    match k with
    | 0 => simp at hx
    | k + 1 =>
      rw [List.enumFrom_cons, List.take_succ_cons] at hx
      rcases List.mem_cons.mp hx with rfl | hx'
      · refine ⟨Nat.le_refl n, by simp, List.mem_cons_self a L⟩
      · obtain ⟨h1, h2, h3⟩ := ih hx'
        exact ⟨by omega, by simp only [List.length_cons]; omega,
          List.mem_cons_of_mem a h3⟩

theorem mem_enumFrom_bounds {α : Type _} {L : List α} {n : Nat} {x : Nat × α}
    (hx : x ∈ L.enumFrom n) : n ≤ x.1 ∧ x.1 - n < L.length ∧ x.2 ∈ L := by
  have hx' : x ∈ (L.enumFrom n).take (L.enumFrom n).length := by
    rw [List.take_length]; exact hx
  have h := mem_take_enumFrom hx'
  simpa using h

theorem pairwise_fst_take_enumFrom {α : Type _} {L : List α} :
    ∀ {n k : Nat}, ((L.enumFrom n).take k).Pairwise (fun x y => x.1 < y.1) := by
  induction L with
  | nil => intro n k; simp
  | cons a L ih =>
    intro n k
    match k with
    | 0 => simp
    | k + 1 =>
      rw [List.enumFrom_cons, List.take_succ_cons]
      refine List.pairwise_cons.mpr ⟨fun y hy => ?_, ih⟩
      exact Nat.lt_of_lt_of_le (Nat.lt_succ_self n) (mem_take_enumFrom hy).1

theorem pairwise_fst_enumFrom {α : Type _} {L : List α} {n : Nat} :
    (L.enumFrom n).Pairwise (fun x y => x.1 < y.1) := by
  have h := pairwise_fst_take_enumFrom (L := L) (n := n) (k := (L.enumFrom n).length)
  rwa [List.take_length] at h

theorem mem_of_containsCrlf : ∀ {c : List Char}, containsCrlf c = true → '\r' ∈ c := by
  intro c h
  induction c with
  | nil => simp [containsCrlf] at h
  | cons a cs ih =>
    simp only [containsCrlf, Bool.or_eq_true, Bool.and_eq_true, decide_eq_true_eq] at h
    rcases h with ⟨h1, -⟩ | h2
    · exact h1 ▸ List.mem_cons_self a cs
    · exact List.mem_cons_of_mem a (ih h2)

theorem containsCrlf_eq_false {c : List Char} (h : '\r' ∉ c) :
    containsCrlf c = false := by
  cases hc : containsCrlf c
  · rfl
  · exact absurd (mem_of_containsCrlf hc) h

theorem mem_twHeadIssues {p : String} {c : List Char} {i : Issue}
    (h : i ∈ twHeadIssues p c) :
    ∃ j, j + 1 < (splitNl c).length ∧
      i = { issue_type := .TrailingWhitespace, line := some (j + 1), file := p,
            message := some "Trailing whitespace" } := by
  simp only [twHeadIssues] at h
  rw [List.mem_filterMap] at h
  obtain ⟨x, hx, hfx⟩ := h
  rw [enum_eq_enumFrom] at hx
  have hm := mem_take_enumFrom hx
  have hl := splitNl_length_pos c
  refine ⟨x.1, by omega, ?_⟩
  split at hfx
  · exact (Option.some.inj hfx).symm
  · cases hfx

theorem mem_crlfIssues {p : String} {c : List Char} {i : Issue}
    (h : i ∈ crlfIssues p c) :
    ∃ j, j < (splitNl c).length ∧
      i = { issue_type := .CrlfLineEnding, line := some (j + 1), file := p,
            message := some "Contains CRLF line endings" } := by
  simp only [crlfIssues] at h
  split at h
  · rw [List.mem_filterMap] at h
    obtain ⟨x, hx, hfx⟩ := h
    rw [enum_eq_enumFrom] at hx
    have hm := mem_enumFrom_bounds hx
    refine ⟨x.1, by omega, ?_⟩
    split at hfx
    · exact (Option.some.inj hfx).symm
    · cases hfx
  · cases h

theorem mem_twLastIssue {p : String} {c : List Char} {i : Issue}
    (h : i ∈ twLastIssue p c) :
    i = { issue_type := .TrailingWhitespace, line := some (splitNl c).length,
          file := p, message := some "Trailing whitespace" } := by
  simp only [twLastIssue] at h
  split at h
  · split at h <;> simp_all
  · simp_all

theorem mem_mnIssue {p : String} {c : List Char} {i : Issue}
    (h : i ∈ mnIssue p c) :
    i = { issue_type := .MissingNewline, line := some (splitNl c).length,
          file := p, message := some "Missing newline at end of file" } := by
  simp only [mnIssue] at h
  split at h <;> simp_all

theorem mem_blankIssue {p : String} {c : List Char} {i : Issue}
    (h : i ∈ blankIssue p c) :
    i = { issue_type := .MultipleBlankLinesEof, line := some (splitNl c).length,
          file := p, message := some "Multiple blank lines at end of file" } := by
  simp only [blankIssue] at h
  split at h <;> simp_all

theorem kind_twHead {p : String} {c : List Char} :
    ∀ i ∈ twHeadIssues p c, i.issue_type = .TrailingWhitespace := by
  intro i hi
  obtain ⟨j, -, rfl⟩ := mem_twHeadIssues hi
  rfl

theorem kind_twLast {p : String} {c : List Char} :
    ∀ i ∈ twLastIssue p c, i.issue_type = .TrailingWhitespace := by
  intro i hi
  rw [mem_twLastIssue hi]

theorem kind_mn {p : String} {c : List Char} :
    ∀ i ∈ mnIssue p c, i.issue_type = .MissingNewline := by
  intro i hi
  rw [mem_mnIssue hi]

theorem kind_crlf {p : String} {c : List Char} :
    ∀ i ∈ crlfIssues p c, i.issue_type = .CrlfLineEnding := by
  intro i hi
  obtain ⟨j, -, rfl⟩ := mem_crlfIssues hi
  rfl

theorem kind_blank {p : String} {c : List Char} :
    ∀ i ∈ blankIssue p c, i.issue_type = .MultipleBlankLinesEof := by
  intro i hi
  rw [mem_blankIssue hi]

theorem filter_of_kind {l : List Issue} {K : IssueType}
    (hK : ∀ i ∈ l, i.issue_type = K) (k : IssueType) :
    l.filter (fun i => i.issue_type == k) = if k = K then l else [] := by
  split
  next hk =>
    subst hk
    exact List.filter_eq_self.mpr fun i hi => by simp [hK i hi]
  next hk =>
    refine List.filter_eq_nil_iff.mpr fun i hi => ?_
    simp only [hK i hi, beq_iff_eq, Bool.not_eq_true]
    exact fun hKk => hk hKk.symm

theorem lint_file_filter_tw (p : String) (c : List Char) :
    (lint_file p c).filter (fun i => i.issue_type == IssueType.TrailingWhitespace) =
      twHeadIssues p c ++ twLastIssue p c := by
  simp only [lint_file, List.filter_append]
  rw [filter_of_kind kind_twHead, filter_of_kind kind_twLast,
    filter_of_kind kind_mn, filter_of_kind kind_crlf, filter_of_kind kind_blank]
  simp

theorem lint_file_filter_mn (p : String) (c : List Char) :
    (lint_file p c).filter (fun i => i.issue_type == IssueType.MissingNewline) =
      mnIssue p c := by
  simp only [lint_file, List.filter_append]
  rw [filter_of_kind kind_twHead, filter_of_kind kind_twLast,
    filter_of_kind kind_mn, filter_of_kind kind_crlf, filter_of_kind kind_blank]
  simp

theorem lint_file_filter_crlf (p : String) (c : List Char) :
    (lint_file p c).filter (fun i => i.issue_type == IssueType.CrlfLineEnding) =
      crlfIssues p c := by
  simp only [lint_file, List.filter_append]
  rw [filter_of_kind kind_twHead, filter_of_kind kind_twLast,
    filter_of_kind kind_mn, filter_of_kind kind_crlf, filter_of_kind kind_blank]
  simp

theorem lint_file_filter_blank (p : String) (c : List Char) :
    (lint_file p c).filter (fun i => i.issue_type == IssueType.MultipleBlankLinesEof) =
      blankIssue p c := by
  simp only [lint_file, List.filter_append]
  rw [filter_of_kind kind_twHead, filter_of_kind kind_twLast,
    filter_of_kind kind_mn, filter_of_kind kind_crlf, filter_of_kind kind_blank]
  simp

theorem mnIssue_eq (p : String) (c : List Char) :
    mnIssue p c =
      if endsWithNl c then []
      else [{ issue_type := .MissingNewline, line := some (splitNl c).length,
              file := p, message := some "Missing newline at end of file" }] := by
  simp only [mnIssue]
  cases h : endsWithNl c <;> simp [h]

theorem pairwise_of_length_le_one {α : Type _} {R : α → α → Prop} {l : List α}
    (h : l.length ≤ 1) : l.Pairwise R := by
  match l with
  | [] => exact .nil
  | [a] => exact List.pairwise_singleton R a
  | a :: b :: t => simp at h

theorem length_twLastIssue_le_one (p : String) (c : List Char) :
    (twLastIssue p c).length ≤ 1 := by
  simp only [twLastIssue]
  split
  · split <;> simp
  · simp

theorem length_mnIssue_le_one (p : String) (c : List Char) :
    (mnIssue p c).length ≤ 1 := by
  simp only [mnIssue]
  split <;> simp

theorem length_blankIssue_le_one (p : String) (c : List Char) :
    (blankIssue p c).length ≤ 1 := by
  simp only [blankIssue]
  split <;> simp

theorem pairwise_line_twHead (p : String) (c : List Char) :
    (twHeadIssues p c).Pairwise (fun a b => a.line.getD 0 < b.line.getD 0) := by
  simp only [twHeadIssues]
  rw [enum_eq_enumFrom]
  refine List.Pairwise.filterMap _ ?_ pairwise_fst_take_enumFrom
  intro a a' hlt b hb b' hb'
  rw [Option.mem_def] at hb hb'
  split at hb
  · split at hb'
    · obtain rfl := (Option.some.inj hb).symm
      obtain rfl := (Option.some.inj hb').symm
      exact Nat.succ_lt_succ hlt
    · cases hb'
  · cases hb

theorem pairwise_line_crlf (p : String) (c : List Char) :
    (crlfIssues p c).Pairwise (fun a b => a.line.getD 0 < b.line.getD 0) := by
  simp only [crlfIssues]
  split
  · rw [enum_eq_enumFrom]
    refine List.Pairwise.filterMap _ ?_ pairwise_fst_enumFrom
    intro a a' hlt b hb b' hb'
    rw [Option.mem_def] at hb hb'
    split at hb
    · split at hb'
      · obtain rfl := (Option.some.inj hb).symm
        obtain rfl := (Option.some.inj hb').symm
        exact Nat.succ_lt_succ hlt
      · cases hb'
    · cases hb
  · exact .nil

/-! Claims -/

/-- C1 (counterexample): the claim "for the empty string as content,
`lint_file` returns the empty issue sequence" is false: on empty content
`lint_file` returns a non-empty list (a `MissingNewline` issue), because
the empty string does not end with a line-feed. -/
theorem C1_counterexample : lint_file "p" [] ≠ [] := by decide

/-- C1 (amended): for the empty string as content, `lint_file` returns
exactly one issue, a `MissingNewline` at line 1, for every path argument;
it returns no issue of any other kind. -/
theorem C1_amended (p : String) :
    lint_file p [] =
      [{ issue_type := .MissingNewline, line := some 1, file := p,
         message := some "Missing newline at end of file" }] := rfl

/-- C2 (counterexample): the claim "`should_ignore` returns an
`InvalidPattern` error whenever the pattern list contains a syntactically
invalid glob, regardless of whether an earlier pattern matches the path"
is false: `"["` is an invalid glob, yet with the earlier pattern `"a"`
matching the path `"a"`, `should_ignore` returns `Ok(true)` instead of an
error. -/
theorem C2_counterexample :
    (Pattern.new "[").isOk = false ∧ should_ignore "a" ["a", "["] = .ok true := by
  constructor
  · simp [Pattern.new, globCompile, Except.map, Except.isOk, Except.toBool]
  · simp [should_ignore, Pattern.new, globCompile, Except.map, Pattern.matches,
      matchesFrom]

/-- C2 (amended): `should_ignore` compiles patterns lazily, in order, and
the first match short-circuits; it returns the `InvalidPattern` error of
an invalid pattern (aborting the run) provided every earlier pattern in
the list compiles and matches neither the path nor its file name. -/
theorem C2_amended (path : String) (pre post : List String) (q : String)
    (e : PatternError) (hq : Pattern.new q = .error e)
    (hpre : ∀ r ∈ pre, compilesAndRejects path r = true) :
    should_ignore path (pre ++ q :: post) = .error e := by
  induction pre with
  | nil => simp only [List.nil_append, should_ignore, hq]
  | cons r pre ih =>
    have hr := hpre r (List.mem_cons_self r pre)
    simp only [compilesAndRejects] at hr
    rcases hpat : Pattern.new r with e' | pr
    · rw [hpat] at hr; cases hr
    · rw [hpat] at hr
      simp only [Bool.and_eq_true, Bool.not_eq_true'] at hr
      rw [List.cons_append]
      simp only [should_ignore, hpat, hr.1, hr.2, Bool.false_eq_true, if_false]
      exact ih fun r' hr' => hpre r' (List.mem_cons_of_mem r hr')

/-- C2 (witness): applying the amended claim at the concrete list
`["b", "[", "*"]` and path `"a"`: the invalid glob `"["` aborts the run. -/
theorem C2_amended_witness :
    should_ignore "a" ["b", "[", "*"] = .error ⟨0, ERROR_INVALID_RANGE⟩ :=
  C2_amended "a" ["b"] ["*"] "[" ⟨0, ERROR_INVALID_RANGE⟩
    (by simp [Pattern.new, globCompile, Except.map])
    (by
      intro r hr
      simp only [List.mem_singleton] at hr
      subst hr
      simp [compilesAndRejects, Pattern.new, globCompile, Except.map,
        Pattern.matches, matchesFrom, rustFileName, splitSlash])

/-- C3: content in which no split line has trailing whitespace, that ends
with a line-feed, contains no carriage return, and whose trailing
newline-run has length at most one, produces no issues. -/
theorem C3_clean_content_no_issues (p : String) (c : List Char)
    (h1 : ∀ l ∈ splitNl c, (trimEnd l).length = l.length)
    (h2 : endsWithNl c = true)
    (h3 : '\r' ∉ c)
    (h4 : trailingNewlineCount c ≤ 1) :
    lint_file p c = [] := by
  have htw : twHeadIssues p c = [] := by
    simp only [twHeadIssues]
    refine List.filterMap_eq_nil_iff.mpr fun x hx => ?_
    rw [enum_eq_enumFrom] at hx
    have hm := mem_take_enumFrom hx
    rw [if_neg]
    exact fun hne => hne (h1 x.2 hm.2.2)
  have htl : twLastIssue p c = [] := by
    simp only [twLastIssue]
    rcases hgl : (splitNl c).getLast? with _ | last
    · rfl
    · simp only [hgl]
      rw [if_neg]
      exact fun hne => hne (h1 last (List.mem_of_getLast?_eq_some hgl))
  have hmn : mnIssue p c = [] := by
    simp [mnIssue, h2]
  have hcr : crlfIssues p c = [] := by
    simp [crlfIssues, containsCrlf_eq_false h3]
  have hbl : blankIssue p c = [] := by
    simp only [blankIssue]
    rw [if_neg]
    exact fun hc => absurd hc.2 (by omega)
  simp [lint_file, htw, htl, hmn, hcr, hbl]

/-- C3 (witness): the clean content `"ok\n"` satisfies all four
hypotheses and yields no issues. -/
theorem C3_witness :
    (∀ l ∈ splitNl "ok\n".toList, (trimEnd l).length = l.length) ∧
      endsWithNl "ok\n".toList = true ∧ '\r' ∉ "ok\n".toList ∧
      trailingNewlineCount "ok\n".toList ≤ 1 ∧
      lint_file "p" "ok\n".toList = [] :=
  ⟨by decide, by decide, by decide, by decide,
    C3_clean_content_no_issues "p" _ (by decide) (by decide) (by decide)
      (by decide)⟩

/-- C4: `lint_file` emits a `MissingNewline` issue iff the content does
not end with a line-feed, and then exactly one, at line equal to the
number of line-feed-split segments; in particular `"hello"` yields exactly
one `MissingNewline` at line 1 and nothing else. -/
theorem C4_missing_newline (p : String) (c : List Char) :
    (lint_file p c).filter (fun i => i.issue_type == IssueType.MissingNewline) =
      (if endsWithNl c then []
       else [{ issue_type := .MissingNewline, line := some (splitNl c).length,
               file := p, message := some "Missing newline at end of file" }]) ∧
    lint_file p "hello".toList =
      [{ issue_type := .MissingNewline, line := some 1, file := p,
         message := some "Missing newline at end of file" }] :=
  ⟨(lint_file_filter_mn p c).trans (mnIssue_eq p c), rfl⟩

/-- C5: `lint_file` emits a `MultipleBlankLinesEof` issue iff the content
is non-empty and the trailing newline-run exceeds one, and then exactly
one, at line equal to the number of split segments; `"foo\n\n\n"` yields
it at line 4, and empty content yields none. -/
theorem C5_blank_lines (p : String) (c : List Char) :
    (lint_file p c).filter
        (fun i => i.issue_type == IssueType.MultipleBlankLinesEof) =
      (if c ≠ [] ∧ trailingNewlineCount c > 1 then
        [{ issue_type := .MultipleBlankLinesEof, line := some (splitNl c).length,
           file := p, message := some "Multiple blank lines at end of file" }]
       else []) ∧
    lint_file p "foo\n\n\n".toList =
      [{ issue_type := .MultipleBlankLinesEof, line := some 4, file := p,
         message := some "Multiple blank lines at end of file" }] ∧
    (lint_file p []).filter
        (fun i => i.issue_type == IssueType.MultipleBlankLinesEof) = [] :=
  ⟨(lint_file_filter_blank p c).trans rfl, rfl, rfl⟩

/-- C6: `lint_file` emits `CrlfLineEnding` issues only when the content
contains a CR-LF pair, and then exactly one per split line containing a
carriage return, at that line's 1-based index; content with carriage
returns but no CR-LF pair yields none (the concrete `"a\rb\n"` yields no
issue at all). -/
theorem C6_crlf (p : String) (c : List Char) :
    (lint_file p c).filter (fun i => i.issue_type == IssueType.CrlfLineEnding) =
      (if containsCrlf c then
        (splitNl c).enum.filterMap fun q =>
          if '\r' ∈ q.2 then
            some { issue_type := .CrlfLineEnding, line := some (q.1 + 1),
                   file := p, message := some "Contains CRLF line endings" }
          else none
       else []) ∧
    lint_file p "a\rb\n".toList = [] :=
  ⟨(lint_file_filter_crlf p c).trans rfl, rfl⟩

/-- C7: when the final split segment has trailing whitespace and the
content does not end with a line-feed, both a `TrailingWhitespace` and a
`MissingNewline` issue are emitted at the same last line index. -/
theorem C7_overlap (p : String) (c : List Char) (last : List Char)
    (hlast : (splitNl c).getLast? = some last)
    (hws : (trimEnd last).length ≠ last.length)
    (hnl : endsWithNl c = false) :
    { issue_type := IssueType.TrailingWhitespace,
      line := some (splitNl c).length, file := p,
      message := some "Trailing whitespace" } ∈ lint_file p c ∧
    { issue_type := IssueType.MissingNewline,
      line := some (splitNl c).length, file := p,
      message := some "Missing newline at end of file" } ∈ lint_file p c := by
  constructor
  · have h : twLastIssue p c =
        [{ issue_type := IssueType.TrailingWhitespace,
           line := some (splitNl c).length, file := p,
           message := some "Trailing whitespace" }] := by
      simp only [twLastIssue, hlast]
      rw [if_pos hws]
    simp [lint_file, h]
  · have h : mnIssue p c =
        [{ issue_type := IssueType.MissingNewline,
           line := some (splitNl c).length, file := p,
           message := some "Missing newline at end of file" }] := by
      simp [mnIssue, hnl]
    simp [lint_file, h]

/-- C7 (witness): the content `"a "` (trailing space, no final newline)
receives both issues at line 1. -/
theorem C7_witness :
    (splitNl "a ".toList).getLast? = some ['a', ' '] ∧
    (trimEnd ['a', ' ']).length ≠ (['a', ' '] : List Char).length ∧
    endsWithNl "a ".toList = false ∧
    ({ issue_type := IssueType.TrailingWhitespace,
       line := some (splitNl "a ".toList).length, file := "p",
       message := some "Trailing whitespace" } ∈ lint_file "p" "a ".toList ∧
     { issue_type := IssueType.MissingNewline,
       line := some (splitNl "a ".toList).length, file := "p",
       message := some "Missing newline at end of file" } ∈
        lint_file "p" "a ".toList) :=
  ⟨by decide, by decide, by decide,
    C7_overlap "p" _ ['a', ' '] (by decide) (by decide) (by decide)⟩

/-- C8: the run fails exactly when the aggregated issue collection is
non-empty, for every output format selection (JSON, YAML, or the default
human-readable report) and every directory list; the report component is
produced alongside, before the outcome is decided. -/
theorem C8_exit_contract (json yaml : Bool) (dirs : List String)
    (issues : List Issue) :
    (renderAndExit json yaml dirs issues).2 = .success ↔ issues = [] := by
  cases json <;> cases yaml <;>
    simp only [renderAndExit, Bool.false_eq_true, Bool.true_eq_false,
      if_true, if_false, stripMessages] <;>
    split <;>
    simp_all [List.isEmpty_iff, List.map_eq_nil_iff]

/-- C9: the issue sequence of `lint_file` is grouped by kind in detection
order — all `TrailingWhitespace` issues (ascending by line), then any
`MissingNewline` issue, then all `CrlfLineEnding` issues (ascending by
line), then any `MultipleBlankLinesEof` issue — and is not in general
sorted by line number (witnessed by `"x\r\ny \nz\n"`, whose issue lines
run 1, 2, 1). -/
theorem C9_detection_order (p : String) (c : List Char) :
    lint_file p c =
      (lint_file p c).filter
          (fun i => i.issue_type == IssueType.TrailingWhitespace) ++
        (lint_file p c).filter
          (fun i => i.issue_type == IssueType.MissingNewline) ++
        (lint_file p c).filter
          (fun i => i.issue_type == IssueType.CrlfLineEnding) ++
        (lint_file p c).filter
          (fun i => i.issue_type == IssueType.MultipleBlankLinesEof) ∧
    ((lint_file p c).filter
        (fun i => i.issue_type == IssueType.TrailingWhitespace)).Pairwise
      (fun a b => a.line.getD 0 < b.line.getD 0) ∧
    ((lint_file p c).filter
        (fun i => i.issue_type == IssueType.CrlfLineEnding)).Pairwise
      (fun a b => a.line.getD 0 < b.line.getD 0) ∧
    ((lint_file p c).filter
        (fun i => i.issue_type == IssueType.MissingNewline)).length ≤ 1 ∧
    ((lint_file p c).filter
        (fun i => i.issue_type == IssueType.MultipleBlankLinesEof)).length ≤ 1 ∧
    ¬ (lint_file "p" "x\r\ny \nz\n".toList).Pairwise
        (fun a b => a.line.getD 0 ≤ b.line.getD 0) := by
  refine ⟨?_, ?_, ?_, ?_, ?_, ?_⟩
  · rw [lint_file_filter_tw, lint_file_filter_mn, lint_file_filter_crlf,
      lint_file_filter_blank]
    simp [lint_file, List.append_assoc]
  · rw [lint_file_filter_tw]
    refine List.pairwise_append.mpr
      ⟨pairwise_line_twHead p c,
        pairwise_of_length_le_one (length_twLastIssue_le_one p c), ?_⟩
    intro a ha b hb
    obtain ⟨j, hj, rfl⟩ := mem_twHeadIssues ha
    rw [mem_twLastIssue hb]
    simpa using hj
  · rw [lint_file_filter_crlf]
    exact pairwise_line_crlf p c
  · rw [lint_file_filter_mn]
    exact length_mnIssue_le_one p c
  · rw [lint_file_filter_blank]
    exact length_blankIssue_le_one p c
  · decide

/-- C10: every issue produced by `lint_file` carries the path argument as
its file and a populated line number between 1 and the number of
line-feed-split segments. -/
theorem C10_issue_wellformed (p : String) (c : List Char) :
    ∀ i ∈ lint_file p c,
      i.file = p ∧ ∃ k, i.line = some k ∧ 1 ≤ k ∧ k ≤ (splitNl c).length := by
  intro i hi
  have hl := splitNl_length_pos c
  simp only [lint_file] at hi
  rcases List.mem_append.mp hi with hi | h
  case inr =>
    obtain rfl := mem_blankIssue h
    exact ⟨rfl, (splitNl c).length, rfl, hl, Nat.le_refl _⟩
  rcases List.mem_append.mp hi with hi | h
  case inr =>
    obtain ⟨j, hj, rfl⟩ := mem_crlfIssues h
    exact ⟨rfl, j + 1, rfl, by omega, by omega⟩
  rcases List.mem_append.mp hi with hi | h
  case inr =>
    obtain rfl := mem_mnIssue h
    exact ⟨rfl, (splitNl c).length, rfl, hl, Nat.le_refl _⟩
  rcases List.mem_append.mp hi with h | h
  · obtain ⟨j, hj, rfl⟩ := mem_twHeadIssues h
    exact ⟨rfl, j + 1, rfl, by omega, by omega⟩
  · obtain rfl := mem_twLastIssue h
    exact ⟨rfl, (splitNl c).length, rfl, hl, Nat.le_refl _⟩

/-- C10 (witness): the single issue detected on `"hello"` carries file
`"p"` and a line between 1 and the segment count. -/
theorem C10_witness :
    ({ issue_type := IssueType.MissingNewline, line := some 1, file := "p",
       message := some "Missing newline at end of file" } : Issue).file = "p" ∧
    ∃ k, ({ issue_type := IssueType.MissingNewline, line := some 1,
            file := "p",
            message := some "Missing newline at end of file" } : Issue).line =
        some k ∧ 1 ≤ k ∧ k ≤ (splitNl "hello".toList).length :=
  C10_issue_wellformed "p" "hello".toList _ (by decide)

end Clean
